import Mathlib

/-!
Verification development for the bundle / triple-store federation layer of
owmeta-core.  The Python sources are shallowly embedded: stateful store
objects become explicit state records, in-place mutation becomes state
returned in `Except`, raised exceptions become `Except.error`, and the
recursive traversals (context-import ingestion, dependency flattening) are
written with an explicit fuel argument so that they stay structurally
recursive while mirroring the seen-set threading of the Python code.
-/

/-- Python-level exceptions raised by the embedded code.
`unsupportedAggregateOperation` and `aggregatedStoresConflict` come from
agg_store.py, `contextStoreException` and `notImplementedError` from
context_store.py, `uncoveredImports` from the installer, and `indexError`
models the IndexError Python raises when `self.__stores[0]` is taken on an
empty store list. -/
inductive PyErr where
  | unsupportedAggregateOperation : PyErr
  | notImplementedError : PyErr
  | contextStoreException : PyErr
  | aggregatedStoresConflict : PyErr
  | indexError : PyErr
  | uncoveredImports : List Nat → PyErr
deriving DecidableEq

/-- Decidable equality for `Except` results, by cases on the constructors
(kept tactic-free so that concrete results evaluate inside `decide`). -/
instance {ε α : Type} [DecidableEq ε] [DecidableEq α] : DecidableEq (Except ε α)
  | .error e1, .error e2 =>
      match decEq e1 e2 with
      | isTrue h => isTrue (h ▸ rfl)
      | isFalse h => isFalse (fun hc => h (by cases hc; rfl))
  | .error _, .ok _ => isFalse (fun hc => Except.noConfusion hc)
  | .ok _, .error _ => isFalse (fun hc => Except.noConfusion hc)
  | .ok a1, .ok a2 =>
      match decEq a1 a2 with
      | isTrue h => isTrue (h ▸ rfl)
      | isFalse h => isFalse (fun hc => h (by cases hc; rfl))

/-! ## AggregateStore (agg_store.py)

The aggregate is a list of child stores of an abstract type `σ`; the child
methods that the aggregate forwards to (`addN`, `commit`,
`prefix`/`namespace` lookups) are passed in as functions, mirroring duck
typing of rdflib stores.  `boundNs` models the `__bound_ns` dict. -/

structure AggState (σ : Type) where
  stores : List σ
  boundNs : Nat → Option Nat

/-- Embeds `AggregateStore.add`: `raise UnsupportedAggregateOperation`. -/
def AggregateStore.add {σ : Type} (_s : AggState σ) : Except PyErr (AggState σ) :=
  .error .unsupportedAggregateOperation

/-- Embeds `AggregateStore.remove`. -/
def AggregateStore.remove {σ : Type} (_s : AggState σ) : Except PyErr (AggState σ) :=
  .error .unsupportedAggregateOperation

/-- Embeds `AggregateStore.add_graph`. -/
def AggregateStore.add_graph {σ : Type} (_s : AggState σ) : Except PyErr (AggState σ) :=
  .error .unsupportedAggregateOperation

/-- Embeds `AggregateStore.remove_graph`. -/
def AggregateStore.remove_graph {σ : Type} (_s : AggState σ) : Except PyErr (AggState σ) :=
  .error .unsupportedAggregateOperation

/-- Embeds `AggregateStore.create`. -/
def AggregateStore.create {σ : Type} (_s : AggState σ) : Except PyErr (AggState σ) :=
  .error .unsupportedAggregateOperation

/-- Embeds `AggregateStore.destroy`. -/
def AggregateStore.destroy {σ : Type} (_s : AggState σ) : Except PyErr (AggState σ) :=
  .error .unsupportedAggregateOperation

/-- Embeds `AggregateStore.rollback`. -/
def AggregateStore.rollback {σ : Type} (_s : AggState σ) : Except PyErr (AggState σ) :=
  .error .unsupportedAggregateOperation

/-- Embeds `AggregateStore.addN`: `return self.__stores[0].addN(*args)`.
`f` is the child store's `addN` method; only the first child is updated. -/
def AggregateStore.addN {σ : Type} (f : σ → List (Nat × Nat) → σ) (s : AggState σ)
    (quads : List (Nat × Nat)) : Except PyErr (AggState σ) :=
  match s.stores with
  | [] => .error .indexError
  | st :: rest => .ok ⟨f st quads :: rest, s.boundNs⟩

/-- Embeds `AggregateStore.commit`: `return self.__stores[0].commit(*args)`. -/
def AggregateStore.commit {σ : Type} (g : σ → σ) (s : AggState σ) :
    Except PyErr (AggState σ) :=
  match s.stores with
  | [] => .error .indexError
  | st :: rest => .ok ⟨g st :: rest, s.boundNs⟩

/-- Embeds `AggregateStore.bind`: `self.__bound_ns[prefix] = namespace`. -/
def AggregateStore.bind {σ : Type} (s : AggState σ) (p ns : Nat) : AggState σ :=
  ⟨s.stores, fun x => if x = p then some ns else s.boundNs x⟩

/-- Embeds the accumulator loop shared by `AggregateStore.prefix` and
`AggregateStore.namespace`: walk the child reports in order with an
accumulator holding the previous report; raise AggregatedStoresConflict when
the current and previous reports are both non-null and differ; otherwise the
accumulator is unconditionally overwritten with the current report. -/
def foldStoreReports : Option Nat → List (Option Nat) → Except PyErr (Option Nat)
  | acc, [] => .ok acc
  | acc, a :: rest =>
      if a.isSome = true ∧ acc.isSome = true ∧ a ≠ acc then
        .error .aggregatedStoresConflict
      else foldStoreReports a rest

/-- Embeds `AggregateStore.prefix` (named `prefixFor` since `prefix` is a
Lean keyword): query `store.prefix(namespace)` of each child via the method
`m`, with the conflict check of `foldStoreReports`; the bound-namespace dict
is never consulted. -/
def AggregateStore.prefixFor {σ : Type} (m : σ → Nat → Option Nat) (s : AggState σ)
    (ns : Nat) : Except PyErr (Option Nat) :=
  foldStoreReports none (s.stores.map (fun st => m st ns))

/-- Embeds `AggregateStore.namespace` (named `nsFor` since `namespace` is a
Lean keyword): like `prefixFor` over the child `namespace` methods, but when
the final report is null it falls back to the locally bound namespaces. -/
def AggregateStore.nsFor {σ : Type} (m : σ → Nat → Option Nat) (s : AggState σ)
    (p : Nat) : Except PyErr (Option Nat) :=
  (foldStoreReports none (s.stores.map (fun st => m st p))).map
    (fun r => match r with
      | some v => some v
      | none => s.boundNs p)

/-- The pairwise condition under which the accumulator loop of
`foldStoreReports` does not raise between two consecutive reports: they are
not both non-null with different values. -/
def reportCompat (a b : Option Nat) : Prop :=
  a.isSome = true → b.isSome = true → a = b

instance (a b : Option Nat) : Decidable (reportCompat a b) :=
  inferInstanceAs (Decidable (a.isSome = true → b.isSome = true → a = b))

/-! ## ContextStore staging (context_store.py)

RDF terms are either variables (`rdflib.term.Variable`) or ground nodes;
statements are triples of terms.  A context is named by a `Nat` identifier;
`CtxData` gives its `contents_triples()` and the identifiers of its
`imports`, so a world `Nat → CtxData` is the object graph of contexts
(possibly cyclic). -/

inductive RTerm where
  | var : Nat → RTerm
  | node : Nat → RTerm
deriving DecidableEq

/-- Embeds `isinstance(x, Variable)`. -/
def RTerm.isVar : RTerm → Bool
  | .var _ => true
  | .node _ => false

/-- A statement: subject, predicate, object. -/
def Stmt : Type := RTerm × RTerm × RTerm

instance : DecidableEq Stmt := by unfold Stmt; infer_instance

/-- Embeds the groundness filter of `_init_store0`:
`not (isinstance(s, Variable) or isinstance(p, Variable) or isinstance(o, Variable))`. -/
def groundB (s : Stmt) : Bool :=
  !s.1.isVar && !s.2.1.isVar && !s.2.2.isVar

/-- One context of the working object graph: its own statements and the
identifiers of the contexts it imports. -/
structure CtxData where
  contents : List Stmt
  imports : List Nat

/-- The quads staged for one visited context by `_init_store0`: its ground
statements, each tagged with that context's own identifier. -/
def groundQuads (w : Nat → CtxData) (c : Nat) : List (Stmt × Nat) :=
  ((w c).contents.filter groundB).map (fun s => (s, c))

/-- Embeds the `for cctx in ctx.imports: self._init_store0(cctx, seen)` loop:
visit each context in the list with `step`, threading the seen list through
and concatenating the staged quads. -/
def stageImports (step : Nat → List Nat → List (Stmt × Nat) × List Nat) :
    List Nat → List Nat → List (Stmt × Nat) × List Nat
  | [], seen => ([], seen)
  | c :: rest, seen =>
      ((step c seen).1 ++ (stageImports step rest (step c seen).2).1,
       (stageImports step rest (step c seen).2).2)

/-- Embeds `ContextStore._init_store0(ctx, seen)`: skip a context already in
the seen set, otherwise add it, stage its ground statements tagged with its
own identifier, and recurse into its imports with the same threaded seen
set.  The Python recursion terminates because `seen` grows; here a fuel
argument bounds the recursion depth, and any fuel larger than the number of
reachable contexts gives the Python behaviour. -/
def initStore0 (w : Nat → CtxData) : Nat → Nat → List Nat → List (Stmt × Nat) × List Nat
  | 0, _, seen => ([], seen)
  | fuel+1, c, seen =>
      if c ∈ seen then ([], seen)
      else
        (groundQuads w c ++
           (stageImports (fun c2 s2 => initStore0 w fuel c2 s2) (w c).imports (c :: seen)).1,
         (stageImports (fun c2 s2 => initStore0 w fuel c2 s2) (w c).imports (c :: seen)).2)

/-- Transitive import reachability over the context object graph: the
reflexive-transitive closure of "directly imports". -/
def Reaches (w : Nat → CtxData) : Nat → Nat → Prop :=
  Relation.ReflTransGen (fun a b => b ∈ (w a).imports)

/-- The staged in-memory index (the `Memory` store deduplicates quads). -/
def stagedStatements (w : Nat → CtxData) (fuel root : Nat) : Finset (Stmt × Nat) :=
  (initStore0 w fuel root []).1.toFinset

/-- The state of a `ContextStore`: the staged in-memory index (`None` once
`close` has run or when no context was given), and the optional backing
overlay `_store_store` (present when `include_stored` was set). -/
structure ContextStore where
  memoryStore : Option (Finset (Stmt × Nat))
  storeStore : Option Unit

/-- Embeds `ContextStore.__init__`/`_init_store` for a non-None context:
stage the context and its transitive imports, and attach the backing
overlay exactly when `include_stored` is set. -/
def ContextStore.make (w : Nat → CtxData) (fuel root : Nat) (includeStored : Bool) :
    ContextStore :=
  ⟨some (stagedStatements w fuel root), if includeStored then some () else none⟩

/-- Embeds `ContextStore.add`: `raise NotImplementedError("This is a query-only store")`. -/
def ContextStore.add (_s : ContextStore) (_t : Stmt) (_c : Option Nat) :
    Except PyErr ContextStore :=
  .error .notImplementedError

/-- Embeds `ContextStore.addN`: `raise NotImplementedError("This is a query-only store")`. -/
def ContextStore.addN (_s : ContextStore) (_quads : List (Stmt × Nat)) :
    Except PyErr ContextStore :=
  .error .notImplementedError

/-- Embeds `ContextStore.remove`: `raise NotImplementedError("This is a query-only store")`. -/
def ContextStore.remove (_s : ContextStore) (_t : Option Stmt) (_c : Option Nat) :
    Except PyErr ContextStore :=
  .error .notImplementedError

/-- Embeds `ContextStore.__len__`: ContextStoreException when the store is
closed/unopened, `len(self._memory_store)` when there is no backing overlay,
and NotImplementedError when the overlay is present.  rdflib Memory's length
with no context argument counts each distinct statement once, even when it
is staged under several context tags, hence the projection to the statement
components before counting. -/
def ContextStore.len (s : ContextStore) : Except PyErr Nat :=
  match s.memoryStore with
  | none => .error .contextStoreException
  | some m =>
      match s.storeStore with
      | none => .ok ((m.image Prod.fst).card)
      | some _ => .error .notImplementedError

/-! ## RDFContextStore (context_store.py)

The backing store is a finite set of quads `(triple, contextId)` with
triples abstracted to `Nat` identifiers; rdflib's `store.triples(pattern,
context)` yields, for each matching triple (restricted to `context` when one
is given), the pair of the triple and the set of all contexts the triple
occurs in anywhere in the store.  A triple pattern is `none` for the full
wildcard `(None, None, None)` or an abstract predicate. -/

/-- All contexts a triple occurs in, across the whole backing store. -/
def ctxsOf (store : Finset (Nat × Nat)) (t : Nat) : Finset Nat :=
  (store.filter (fun q => q.1 = t)).image Prod.snd

/-- Whether a triple matches a pattern (`none` = wildcard). -/
def patMatch (pat : Option (Nat → Bool)) (t : Nat) : Bool :=
  match pat with
  | none => true
  | some f => f t

/-- Embeds the backing `store.triples(pattern, context)` call: the matching
triples (of `context` when given), each paired with all of its contexts. -/
def storeTriples (store : Finset (Nat × Nat)) (pat : Option (Nat → Bool))
    (ctx : Option Nat) : Finset (Nat × Finset Nat) :=
  (((match ctx with
     | some c => store.filter (fun (q : Nat × Nat) => q.2 = c)
     | none => store).image Prod.fst).filter (fun t => patMatch pat t)).image
    (fun t => (t, ctxsOf store t))

/-- Embeds the scan-and-filter branch of `RDFContextStore.triples`: query the
backing store, intersect each result's context set with the closure (the
Python truthiness check skips the intersection when the closure is empty),
and keep only results with a non-empty intersection. -/
def scanFilter (closure : Finset Nat) (store : Finset (Nat × Nat))
    (pat : Option (Nat → Bool)) (ctx : Option Nat) : Finset (Nat × Finset Nat) :=
  ((storeTriples store pat ctx).image
      (fun p => (p.1, if closure = ∅ then p.2 else closure ∩ p.2))).filter
    (fun p => p.2 ≠ ∅)

/-- Embeds the query-per-context branch of `RDFContextStore.triples`: iterate
the closure, query the backing store context by context with the wildcard
pattern, and intersect each result's context set with the closure. -/
def planA (closure : Finset Nat) (store : Finset (Nat × Nat)) :
    Finset (Nat × Finset Nat) :=
  closure.biUnion
    (fun c => (storeTriples store none (some c)).image (fun p => (p.1, closure ∩ p.2)))

/-- Result of `RDFContextStore._determine_context`: the `_BAD_CONTEXT`
sentinel, no context (query everything), or a definite context. -/
inductive DContext where
  | bad : DContext
  | noctx : DContext
  | ctx : Nat → DContext

/-- Embeds `RDFContextStore._determine_context`: a given context outside the
transitive-import closure is `_BAD_CONTEXT`; with no context given, a
singleton closure is collapsed to its sole element. -/
def determineContext (closure : Finset Nat) (context : Option Nat) : DContext :=
  match context with
  | some c => if c ∈ closure then .ctx c else .bad
  | none =>
      if h : closure.card = 1 then
        DContext.ctx (closure.min' (Finset.card_pos.mp (by omega)))
      else DContext.noctx

/-- Embeds `RDFContextStore.triples`: empty on the bad context; with the
wildcard pattern, no context and the per-context cost decision (`perctx`),
run the query-per-context plan, otherwise scan and filter. -/
def rdfTriples (closure : Finset Nat) (store : Finset (Nat × Nat))
    (pat : Option (Nat → Bool)) (context : Option Nat) (perctx : Bool) :
    Finset (Nat × Finset Nat) :=
  match determineContext closure context with
  | .bad => ∅
  | .noctx =>
      if pat.isNone && perctx then planA closure store
      else scanFilter closure store pat none
  | .ctx c => scanFilter closure store pat (some c)

/-- Embeds `RDFContextStore.triples_choices`: always the scan-and-filter
shape (no per-context branch). -/
def rdfTriplesChoices (closure : Finset Nat) (store : Finset (Nat × Nat))
    (pat : Option (Nat → Bool)) (context : Option Nat) : Finset (Nat × Finset Nat) :=
  match determineContext closure context with
  | .bad => ∅
  | .noctx => scanFilter closure store pat none
  | .ctx c => scanFilter closure store pat (some c)

/-- The quads `RDFContextStore.remove` deletes: for each matching triple, the
pairs of that triple with each context of its closure-intersected context
set. -/
def removedPairs (closure : Finset Nat) (store : Finset (Nat × Nat))
    (pat : Option (Nat → Bool)) (ctx : Option Nat) : Finset (Nat × Nat) :=
  (storeTriples store pat ctx).biUnion
    (fun p => (if closure = ∅ then p.2 else closure ∩ p.2).image (fun c => (p.1, c)))

/-- Embeds `RDFContextStore.remove`: nothing is deleted on the bad context,
otherwise the matching quads are removed per context of the intersection. -/
def rdfRemove (closure : Finset Nat) (store : Finset (Nat × Nat))
    (pat : Option (Nat → Bool)) (context : Option Nat) : Finset (Nat × Nat) :=
  match determineContext closure context with
  | .bad => store
  | .noctx => store \ removedPairs closure store pat none
  | .ctx c => store \ removedPairs closure store pat (some c)

/-! ## Bundle manifest model and dependency flattening

The bundle module itself is not part of the sources here (only its tests
are), so the resolver and installer below are modelled from the spec. -/

/-- A dependency edge of a bundle manifest: the dependency's id and the set
of context identifiers this edge does not contribute toward coverage. -/
structure DependencyDescriptor where
  id : Nat
  excludes : Finset Nat
deriving DecidableEq

/-- A bundle manifest: the context identifiers it includes and its ordered
dependency list. -/
structure Descriptor where
  includes : Finset Nat
  dependencies : List DependencyDescriptor

/-- The dedup key of dependency flattening: the dependency id together with
the exclusion set in effect on its path. -/
def DKey : Type := Nat × Finset Nat

instance : DecidableEq DKey := by unfold DKey; infer_instance

/-- A store-configuration entry: a bundle's own indexed database (leaf), or
an aggregate entry holding a nested configuration list and the excludes of
its dependency edge (empty = the `excludes` parameter is absent). -/
inductive StoreConf where
  | leaf : Nat → StoreConf
  | agg : List StoreConf → Finset Nat → StoreConf

/-- Modelled from the spec: the per-dependency loop of the dependency
resolver (the bundle module is absent from the sources).  For each direct
dependency in declaration order, its key is the pair of its id and the
exclusion set in effect (the excludes accumulated along the dependency path
unioned with this edge's excludes, the reading of "the pair (id, excludes)"
forced by the spec's two flattening examples in section 8); a key already in
the single threaded seen list is skipped entirely, otherwise the key is
recorded and `step` flattens the dependency's own bundle depth-first,
nesting its result as an aggregate entry that carries this edge's excludes. -/
def flattenDepList (step : Nat → Finset Nat → List DKey → List StoreConf × List DKey) :
    List DependencyDescriptor → Finset Nat → List DKey → List StoreConf × List DKey
  | [], _, seen => ([], seen)
  | dd :: rest, inh, seen =>
      if (dd.id, inh ∪ dd.excludes) ∈ seen then flattenDepList step rest inh seen
      else
        (StoreConf.agg
           (StoreConf.leaf dd.id ::
             (step dd.id (inh ∪ dd.excludes) ((dd.id, inh ∪ dd.excludes) :: seen)).1)
           dd.excludes ::
           (flattenDepList step rest inh
             (step dd.id (inh ∪ dd.excludes) ((dd.id, inh ∪ dd.excludes) :: seen)).2).1,
         (flattenDepList step rest inh
           (step dd.id (inh ∪ dd.excludes) ((dd.id, inh ∪ dd.excludes) :: seen)).2).2)

/-- Modelled from the spec: recursively flatten the dependency DAG below one
bundle, threading the seen list; fuel bounds the recursion depth (any fuel
larger than the tree depth gives the full flattening). -/
def flattenDeps (w : Nat → Descriptor) :
    Nat → Nat → Finset Nat → List DKey → List StoreConf × List DKey
  | 0, _, _, seen => ([], seen)
  | fuel+1, bid, inh, seen =>
      flattenDepList (fun b e s => flattenDeps w fuel b e s) (w bid).dependencies inh seen

/-- Modelled from the spec: the flattened store configuration of a bundle —
entry 0 is the bundle's own backing store, followed by the flattened
dependency entries built with a single seen list starting empty. -/
def buildStoreConf (w : Nat → Descriptor) (fuel root : Nat) : List StoreConf :=
  StoreConf.leaf root :: (flattenDeps w fuel root ∅ []).1

/-! ## Installer import validation

Also modelled from the spec (the installer lives in the absent bundle
module); the three behaviours pinned by the install tests are normative:
coverage comes from the bundle's own includes and from each directly
declared dependency's includes minus that edge's excludes — a context
included only by a transitive dependency is not covered. -/

/-- Modelled from the spec: the coverage contributed by one directly
declared dependency — the includes of its bundle minus this edge's
excludes. -/
def depCoverage (w : Nat → Descriptor) (dd : DependencyDescriptor) : Finset Nat :=
  (w dd.id).includes \ dd.excludes

/-- Modelled from the spec: whether a context identifier is covered — by the
bundle's own includes or by the excludes-filtered coverage of some directly
declared dependency. -/
def coveredB (w : Nat → Descriptor) (d : Descriptor) (c : Nat) : Bool :=
  decide (c ∈ d.includes) || d.dependencies.any (fun dd => decide (c ∈ depCoverage w dd))

/-- Modelled from the spec: the import-validation step of
`Installer.install` — for every import edge whose source is an included
context, the target must be covered; all uncovered targets are aggregated
and raised as UncoveredImports. -/
def Installer.validateImports (w : Nat → Descriptor) (d : Descriptor)
    (edges : List (Nat × Nat)) : Except PyErr Unit :=
  if (edges.filter
      (fun e => decide (e.1 ∈ d.includes) && !coveredB w d e.2)).map Prod.snd = [] then
    .ok ()
  else
    .error (.uncoveredImports
      ((edges.filter
        (fun e => decide (e.1 ∈ d.includes) && !coveredB w d e.2)).map Prod.snd))

/-! ## Concrete instances used by the claims

These mirror the fixtures of BundleTest.py and BundleInstallTest.py with
bundle ids `test = 0`, `dep = 1`, `dep_dep = 2` and context ids
`ctx1 = 1`, `ctx2 = 2`, `imports_ctx = 3` (context id `10` plays `ctx1` in
the flattening-excludes fixture). -/

/-- The dependency world of `test_bundle_store_conf_with_two_dep_levels`. -/
def depWorld1 : Nat → Descriptor := fun n =>
  if n = 0 then ⟨∅, [⟨1, ∅⟩, ⟨2, ∅⟩]⟩
  else if n = 1 then ⟨∅, [⟨2, ∅⟩]⟩
  else ⟨∅, []⟩

/-- The dependency world of `test_bundle_store_conf_with_two_levels_excludes`:
the direct edge to bundle 1 carries the exclude set `{10}`. -/
def depWorld2 : Nat → Descriptor := fun n =>
  if n = 0 then ⟨∅, [⟨1, {10}⟩, ⟨2, ∅⟩]⟩
  else if n = 1 then ⟨∅, [⟨2, ∅⟩]⟩
  else ⟨∅, []⟩

/-- A bundle world with no installed bundles (`test_imports_are_included`). -/
def instWorld1 : Nat → Descriptor := fun _ => ⟨∅, []⟩

/-- A descriptor including `ctx1` and the imports context only. -/
def instDesc1 : Descriptor := ⟨{1, 3}, []⟩

/-- A world where the directly declared dependency (bundle 4) includes
`ctx2` (`test_imports_in_dependencies`). -/
def instWorld2 : Nat → Descriptor := fun n => if n = 4 then ⟨{2}, []⟩ else ⟨∅, []⟩

/-- `instDesc1` plus a declared dependency on bundle 4. -/
def instDesc2 : Descriptor := ⟨{1, 3}, [⟨4, ∅⟩]⟩

/-- A world where `ctx2` is included only by the transitive dependency
bundle 5 of bundle 4 (`test_imports_in_transitive_dependency_not_included`). -/
def instWorld3 : Nat → Descriptor := fun n =>
  if n = 4 then ⟨∅, [⟨5, ∅⟩]⟩ else if n = 5 then ⟨{2}, []⟩ else ⟨∅, []⟩

/-- A context world where context 0 has no statements of its own and imports
context 1, which holds one ground statement. -/
def ctxWorldCex : Nat → CtxData := fun n =>
  if n = 0 then ⟨[], [1]⟩
  else if n = 1 then ⟨[(RTerm.node 5, RTerm.node 6, RTerm.node 7)], []⟩
  else ⟨[], []⟩

/-- A cyclic context world: context 0 (one ground and one non-ground
statement) imports context 1 and itself, and context 1 imports context 0
back. -/
def ctxWorldCyc : Nat → CtxData := fun n =>
  if n = 0 then
    ⟨[(RTerm.node 1, RTerm.node 1, RTerm.node 1), (RTerm.var 0, RTerm.node 1, RTerm.node 1)],
      [1, 0]⟩
  else if n = 1 then ⟨[(RTerm.node 2, RTerm.node 2, RTerm.node 2)], [0]⟩
  else ⟨[], []⟩

/-- Specification predicate for one traversal step of `_init_store0`: the
staged quads are exactly the ground statements of the newly seen contexts,
each tagged with the identifier of the context containing it. -/
def QuadSpec (w : Nat → CtxData) (sIn : List Nat)
    (res : List (Stmt × Nat) × List Nat) : Prop :=
  ∀ st c, (st, c) ∈ res.1 ↔
    (c ∈ res.2 ∧ c ∉ sIn ∧ groundB st = true ∧ st ∈ (w c).contents)

/-- The contexts a traversal step adds to the seen list are confined to the
universe `U` and import-closed within the resulting seen list. -/
def SeenClosed (w : Nat → CtxData) (U : Finset Nat) (sIn sOut : List Nat) : Prop :=
  ∀ x, x ∈ sOut → x ∉ sIn → x ∈ U ∧ ∀ i ∈ (w x).imports, i ∈ sOut

/-! ## Lemmas: the prefix and namespace accumulator loop -/

theorem foldStoreReports_ok_val :
    ∀ (rs : List (Option Nat)) (acc v : Option Nat),
      foldStoreReports acc rs = .ok v → v = rs.getLastD acc := by
  intro rs
  induction rs with
  | nil =>
      intro acc v h
      simp only [foldStoreReports, Except.ok.injEq] at h
      simp [h]
  | cons a rest ih =>
      intro acc v h
      rw [foldStoreReports] at h
      by_cases hc : (a.isSome = true ∧ acc.isSome = true ∧ a ≠ acc)
      · rw [if_pos hc] at h
        cases h
      · rw [if_neg hc] at h
        rw [List.getLastD_cons]
        exact ih a v h

theorem foldStoreReports_error_iff :
    ∀ (rs : List (Option Nat)) (acc : Option Nat),
      (∃ e, foldStoreReports acc rs = .error e) ↔
        ¬ List.Chain' reportCompat (acc :: rs) := by
  intro rs
  induction rs with
  | nil =>
      intro acc
      simp [foldStoreReports, List.chain'_singleton]
  | cons a rest ih =>
      intro acc
      rw [foldStoreReports, List.chain'_cons]
      split_ifs with hc
      · obtain ⟨ha, hacc, hne⟩ := hc
        constructor
        · intro _ hch
          exact hne (hch.1 hacc ha).symm
        · intro _
          exact ⟨.aggregatedStoresConflict, rfl⟩
      · rw [ih a]
        constructor
        · intro hch hand
          exact hch hand.2
        · intro hnot
          intro hch
          apply hnot
          refine ⟨?_, hch⟩
          intro hacc ha
          by_contra hne
          exact hc ⟨ha, hacc, fun he => hne he.symm⟩

/-! ## Lemmas: RDFContextStore query plans -/

theorem ctxsOf_mem (store : Finset (Nat × Nat)) (t c : Nat) :
    c ∈ ctxsOf store t ↔ (t, c) ∈ store := by
  simp only [ctxsOf, Finset.mem_image, Finset.mem_filter]
  constructor
  · rintro ⟨⟨a, b⟩, ⟨hm, ht⟩, hc⟩
    cases ht
    cases hc
    exact hm
  · intro h
    exact ⟨(t, c), ⟨h, rfl⟩, rfl⟩

theorem mem_storeTriples_some (store : Finset (Nat × Nat)) (pat : Option (Nat → Bool))
    (c : Nat) (p : Nat × Finset Nat) :
    p ∈ storeTriples store pat (some c) ↔
      ∃ t, (t, c) ∈ store ∧ patMatch pat t = true ∧ p = (t, ctxsOf store t) := by
  simp only [storeTriples, Finset.mem_image, Finset.mem_filter]
  constructor
  · rintro ⟨t, ⟨⟨⟨a, b⟩, ⟨hm, hb⟩, ha⟩, hpat⟩, hp⟩
    cases hb
    cases ha
    exact ⟨a, hm, hpat, hp.symm⟩
  · rintro ⟨t, hm, hpat, hp⟩
    exact ⟨t, ⟨⟨(t, c), ⟨hm, rfl⟩, rfl⟩, hpat⟩, hp.symm⟩

theorem mem_storeTriples_none (store : Finset (Nat × Nat)) (pat : Option (Nat → Bool))
    (p : Nat × Finset Nat) :
    p ∈ storeTriples store pat none ↔
      ∃ t c0, (t, c0) ∈ store ∧ patMatch pat t = true ∧ p = (t, ctxsOf store t) := by
  simp only [storeTriples, Finset.mem_image, Finset.mem_filter]
  constructor
  · rintro ⟨t, ⟨⟨⟨a, b⟩, hm, ha⟩, hpat⟩, hp⟩
    cases ha
    exact ⟨a, b, hm, hpat, hp.symm⟩
  · rintro ⟨t, c0, hm, hpat, hp⟩
    exact ⟨t, ⟨⟨(t, c0), hm, rfl⟩, hpat⟩, hp.symm⟩

theorem mem_planA (closure : Finset Nat) (store : Finset (Nat × Nat)) (t : Nat)
    (S : Finset Nat) :
    (t, S) ∈ planA closure store ↔
      (∃ c ∈ closure, (t, c) ∈ store) ∧ S = closure ∩ ctxsOf store t := by
  simp only [planA, Finset.mem_biUnion, Finset.mem_image]
  constructor
  · rintro ⟨c, hc, p, hp, heq⟩
    rw [mem_storeTriples_some] at hp
    obtain ⟨t2, hm, -, hp⟩ := hp
    subst hp
    dsimp only at heq
    rw [Prod.mk.injEq] at heq
    obtain ⟨ht, hS⟩ := heq
    subst ht
    subst hS
    exact ⟨⟨c, hc, hm⟩, rfl⟩
  · rintro ⟨⟨c, hc, hm⟩, hS⟩
    refine ⟨c, hc, (t, ctxsOf store t), ?_, by rw [hS]⟩
    rw [mem_storeTriples_some]
    exact ⟨t, hm, rfl, rfl⟩

theorem mem_scanFilter_wild (closure : Finset Nat) (store : Finset (Nat × Nat))
    (hne : closure ≠ ∅) (t : Nat) (S : Finset Nat) :
    (t, S) ∈ scanFilter closure store none none ↔
      S ≠ ∅ ∧ (∃ c0, (t, c0) ∈ store) ∧ S = closure ∩ ctxsOf store t := by
  simp only [scanFilter, Finset.mem_filter, Finset.mem_image]
  constructor
  · rintro ⟨⟨p, hp, heq⟩, hSne⟩
    rw [mem_storeTriples_none] at hp
    obtain ⟨t2, c0, hm, -, hp⟩ := hp
    subst hp
    dsimp only at heq
    rw [if_neg hne, Prod.mk.injEq] at heq
    obtain ⟨ht, hS⟩ := heq
    subst ht
    subst hS
    exact ⟨hSne, ⟨c0, hm⟩, rfl⟩
  · rintro ⟨hSne, ⟨c0, hm⟩, hS⟩
    refine ⟨⟨(t, ctxsOf store t), ?_, ?_⟩, hSne⟩
    · rw [mem_storeTriples_none]
      exact ⟨t, c0, hm, rfl, rfl⟩
    · rw [if_neg hne, ← hS]

theorem planA_eq_scanFilter (closure : Finset Nat) (store : Finset (Nat × Nat))
    (h : closure.Nonempty) : planA closure store = scanFilter closure store none none := by
  have hne : closure ≠ ∅ := h.ne_empty
  apply Finset.ext
  rintro ⟨t, S⟩
  rw [mem_planA, mem_scanFilter_wild closure store hne]
  constructor
  · rintro ⟨⟨c, hc, hm⟩, hS⟩
    refine ⟨?_, ⟨c, hm⟩, hS⟩
    apply Finset.ne_empty_of_mem (a := c)
    rw [hS, Finset.mem_inter, ctxsOf_mem]
    exact ⟨hc, hm⟩
  · rintro ⟨hSne, ⟨c0, hm⟩, hS⟩
    refine ⟨?_, hS⟩
    obtain ⟨x, hx⟩ := Finset.nonempty_iff_ne_empty.mpr hSne
    rw [hS, Finset.mem_inter, ctxsOf_mem] at hx
    exact ⟨x, hx.1, hx.2⟩

theorem foldStoreReports_ok_of_chain :
    ∀ (rs : List (Option Nat)) (acc : Option Nat),
      List.Chain' reportCompat (acc :: rs) →
      foldStoreReports acc rs = .ok (rs.getLastD acc) := by
  intro rs
  induction rs with
  | nil => intro acc _; simp [foldStoreReports]
  | cons a rest ih =>
      intro acc hch
      rw [List.chain'_cons] at hch
      rw [foldStoreReports, List.getLastD_cons]
      split_ifs with hc
      · exact absurd (hch.1 hc.2.1 hc.1) (fun he => hc.2.2 he.symm)
      · exact ih a hch.2

/-! ## Lemmas: the context-import traversal of `_init_store0` -/

theorem stageImports_suffix (step : Nat → List Nat → List (Stmt × Nat) × List Nat)
    (hsuf : ∀ c s, s <:+ (step c s).2) :
    ∀ (l s : List Nat), s <:+ (stageImports step l s).2 := by
  intro l
  induction l with
  | nil => intro s; rw [stageImports]
  | cons c rest ih =>
      intro s
      rw [stageImports]
      exact (hsuf c s).trans (ih (step c s).2)

theorem initStore0_suffix (w : Nat → CtxData) :
    ∀ (fuel c : Nat) (s : List Nat), s <:+ (initStore0 w fuel c s).2 := by
  intro fuel
  induction fuel with
  | zero => intro c s; rw [initStore0]
  | succ n ih =>
      intro c s
      rw [initStore0]
      by_cases h : c ∈ s
      · rw [if_pos h]
      · rw [if_neg h]
        exact (List.suffix_cons c s).trans
          (stageImports_suffix (fun c2 s2 => initStore0 w n c2 s2)
            (fun c2 s2 => ih c2 s2) (w c).imports (c :: s))

theorem stageImports_nodup (step : Nat → List Nat → List (Stmt × Nat) × List Nat)
    (hstep : ∀ c s, s.Nodup → (step c s).2.Nodup) :
    ∀ (l s : List Nat), s.Nodup → (stageImports step l s).2.Nodup := by
  intro l
  induction l with
  | nil => intro s hs; rw [stageImports]; exact hs
  | cons c rest ih =>
      intro s hs
      rw [stageImports]
      exact ih (step c s).2 (hstep c s hs)

theorem initStore0_nodup (w : Nat → CtxData) :
    ∀ (fuel c : Nat) (s : List Nat), s.Nodup → (initStore0 w fuel c s).2.Nodup := by
  intro fuel
  induction fuel with
  | zero => intro c s hs; rw [initStore0]; exact hs
  | succ n ih =>
      intro c s hs
      rw [initStore0]
      by_cases h : c ∈ s
      · rw [if_pos h]; exact hs
      · rw [if_neg h]
        exact stageImports_nodup (fun c2 s2 => initStore0 w n c2 s2)
          (fun c2 s2 hs2 => ih c2 s2 hs2) (w c).imports (c :: s)
          (List.nodup_cons.mpr ⟨h, hs⟩)

theorem groundQuads_mem (w : Nat → CtxData) (c : Nat) (st : Stmt) (c2 : Nat) :
    (st, c2) ∈ groundQuads w c ↔
      c2 = c ∧ groundB st = true ∧ st ∈ (w c).contents := by
  simp only [groundQuads, List.mem_map, List.mem_filter]
  constructor
  · rintro ⟨s, ⟨hmem, hg⟩, heq⟩
    injection heq with h1 h2
    subst h1
    subst h2
    exact ⟨rfl, hg, hmem⟩
  · rintro ⟨rfl, hg, hmem⟩
    exact ⟨st, ⟨hmem, hg⟩, rfl⟩

theorem stageImports_quads (w : Nat → CtxData)
    (step : Nat → List Nat → List (Stmt × Nat) × List Nat)
    (hsuf : ∀ c s, s <:+ (step c s).2)
    (hq : ∀ c s, QuadSpec w s (step c s)) :
    ∀ (l s : List Nat), QuadSpec w s (stageImports step l s) := by
  intro l
  induction l with
  | nil =>
      intro s
      unfold QuadSpec
      intro st c
      rw [stageImports]
      constructor
      · intro h
        exact absurd h (List.not_mem_nil _)
      · rintro ⟨h1, h2, -⟩
        exact absurd h1 h2
  | cons c2 rest ih =>
      intro s
      unfold QuadSpec
      intro st c
      rw [stageImports]
      dsimp only
      rw [List.mem_append]
      constructor
      · intro hmem
        rcases hmem with hmem | hmem
        · have h2 := ((hq c2 s) st c).mp hmem
          exact ⟨(stageImports_suffix step hsuf rest (step c2 s).2).subset h2.1,
            h2.2.1, h2.2.2⟩
        · have h2 := ((ih (step c2 s).2) st c).mp hmem
          exact ⟨h2.1, fun hcs => h2.2.1 ((hsuf c2 s).subset hcs),
            h2.2.2.1, h2.2.2.2⟩
      · rintro ⟨hout, hnotin, hg, hct⟩
        by_cases hc1 : c ∈ (step c2 s).2
        · exact Or.inl (((hq c2 s) st c).mpr ⟨hc1, hnotin, hg, hct⟩)
        · exact Or.inr (((ih (step c2 s).2) st c).mpr ⟨hout, hc1, hg, hct⟩)

theorem initStore0_quads (w : Nat → CtxData) :
    ∀ (fuel c : Nat) (s : List Nat), QuadSpec w s (initStore0 w fuel c s) := by
  intro fuel
  induction fuel with
  | zero =>
      intro c s
      unfold QuadSpec
      intro st c2
      rw [initStore0]
      constructor
      · intro h
        exact absurd h (List.not_mem_nil _)
      · rintro ⟨h1, h2, -⟩
        exact absurd h1 h2
  | succ n ih =>
      intro c s
      unfold QuadSpec
      intro st c2
      rw [initStore0]
      by_cases h : c ∈ s
      · rw [if_pos h]
        constructor
        · intro hmem
          exact absurd hmem (List.not_mem_nil _)
        · rintro ⟨h1, h2, -⟩
          exact absurd h1 h2
      · rw [if_neg h]
        dsimp only
        rw [List.mem_append]
        have hq2 := stageImports_quads w (fun c3 s3 => initStore0 w n c3 s3)
          (fun c3 s3 => initStore0_suffix w n c3 s3)
          (fun c3 s3 => ih c3 s3) (w c).imports (c :: s)
        unfold QuadSpec at hq2
        constructor
        · intro hmem
          rcases hmem with hmem | hmem
          · rw [groundQuads_mem] at hmem
            obtain ⟨rfl, hg, hct⟩ := hmem
            refine ⟨?_, h, hg, hct⟩
            exact (stageImports_suffix (fun c3 s3 => initStore0 w n c3 s3)
              (fun c3 s3 => initStore0_suffix w n c3 s3) (w c2).imports
              (c2 :: s)).subset (List.mem_cons_self c2 s)
          · have h3 := (hq2 st c2).mp hmem
            exact ⟨h3.1, fun hcs => h3.2.1 (List.mem_cons_of_mem c hcs),
              h3.2.2.1, h3.2.2.2⟩
        · rintro ⟨hout, hnotin, hg, hct⟩
          by_cases hcc : c2 = c
          · subst hcc
            exact Or.inl ((groundQuads_mem w c2 st c2).mpr ⟨rfl, hg, hct⟩)
          · have hnx : c2 ∉ c :: s :=
              fun hm => (List.mem_cons.mp hm).elim hcc hnotin
            exact Or.inr ((hq2 st c2).mpr ⟨hout, hnx, hg, hct⟩)

theorem stageImports_sound (w : Nat → CtxData)
    (step : Nat → List Nat → List (Stmt × Nat) × List Nat)
    (hstep : ∀ c s x, x ∈ (step c s).2 → x ∈ s ∨ Reaches w c x) :
    ∀ (l s : List Nat) (x : Nat),
      x ∈ (stageImports step l s).2 → x ∈ s ∨ ∃ r ∈ l, Reaches w r x := by
  intro l
  induction l with
  | nil =>
      intro s x h
      rw [stageImports] at h
      exact Or.inl h
  | cons c rest ih =>
      intro s x h
      rw [stageImports] at h
      dsimp only at h
      rcases ih (step c s).2 x h with h1 | ⟨r, hr, hrx⟩
      · rcases hstep c s x h1 with h2 | h2
        · exact Or.inl h2
        · exact Or.inr ⟨c, List.mem_cons_self c rest, h2⟩
      · exact Or.inr ⟨r, List.mem_cons_of_mem c hr, hrx⟩

theorem initStore0_sound (w : Nat → CtxData) :
    ∀ (fuel c : Nat) (s : List Nat) (x : Nat),
      x ∈ (initStore0 w fuel c s).2 → x ∈ s ∨ Reaches w c x := by
  intro fuel
  induction fuel with
  | zero =>
      intro c s x h
      rw [initStore0] at h
      exact Or.inl h
  | succ n ih =>
      intro c s x h
      rw [initStore0] at h
      by_cases hc : c ∈ s
      · rw [if_pos hc] at h
        exact Or.inl h
      · rw [if_neg hc] at h
        dsimp only at h
        rcases stageImports_sound w (fun c3 s3 => initStore0 w n c3 s3)
            (fun c3 s3 x3 => ih c3 s3 x3) (w c).imports (c :: s) x h with
          h1 | ⟨r, hr, hrx⟩
        · rcases List.mem_cons.mp h1 with rfl | h2
          · exact Or.inr Relation.ReflTransGen.refl
          · exact Or.inl h2
        · exact Or.inr (Relation.ReflTransGen.head hr hrx)

theorem seenClosed_trans (w : Nat → CtxData) (U : Finset Nat) (s1 s2 s3 : List Nat)
    (h12 : SeenClosed w U s1 s2) (h23 : SeenClosed w U s2 s3) (hsub : s2 <:+ s3) :
    SeenClosed w U s1 s3 := by
  unfold SeenClosed at h12 h23 ⊢
  intro x hx3 hx1
  by_cases hx2 : x ∈ s2
  · obtain ⟨hU2, himp⟩ := h12 x hx2 hx1
    exact ⟨hU2, fun i hi => hsub.subset (himp i hi)⟩
  · exact h23 x hx3 hx2

theorem card_inter_mono (U : Finset Nat) (s s2 : List Nat) (h : s <:+ s2) :
    (s.toFinset ∩ U).card ≤ (s2.toFinset ∩ U).card := by
  apply Finset.card_le_card
  apply Finset.inter_subset_inter _ (Finset.Subset.refl U)
  intro x hx
  rw [List.mem_toFinset] at hx ⊢
  exact h.subset hx

theorem card_inter_cons (U : Finset Nat) (c : Nat) (s : List Nat)
    (hcU : c ∈ U) (hcs : c ∉ s) :
    ((c :: s).toFinset ∩ U).card = (s.toFinset ∩ U).card + 1 := by
  rw [List.toFinset_cons, Finset.insert_inter_of_mem hcU,
    Finset.card_insert_of_not_mem]
  intro hmem
  exact hcs (List.mem_toFinset.mp (Finset.mem_inter.mp hmem).1)

theorem stageImports_complete (w : Nat → CtxData) (U : Finset Nat) (k : Nat)
    (step : Nat → List Nat → List (Stmt × Nat) × List Nat)
    (hsuf : ∀ c s, s <:+ (step c s).2)
    (hstep : ∀ c s, c ∈ U → U.card + 1 ≤ k + (s.toFinset ∩ U).card →
        c ∈ (step c s).2 ∧ SeenClosed w U s (step c s).2) :
    ∀ (l s : List Nat), (∀ r ∈ l, r ∈ U) →
      U.card + 1 ≤ k + (s.toFinset ∩ U).card →
      (∀ r ∈ l, r ∈ (stageImports step l s).2) ∧
        SeenClosed w U s (stageImports step l s).2 := by
  intro l
  induction l with
  | nil =>
      intro s _ _
      rw [stageImports]
      constructor
      · intro r hr
        exact absurd hr (List.not_mem_nil r)
      · intro x hx hnx
        exact absurd hx hnx
  | cons c rest ih =>
      intro s hl hcond
      rw [stageImports]
      dsimp only
      have hcU : c ∈ U := hl c (List.mem_cons_self c rest)
      obtain ⟨hcin, hcl1⟩ := hstep c s hcU hcond
      have hcond2 : U.card + 1 ≤ k + (((step c s).2).toFinset ∩ U).card := by
        have := card_inter_mono U s (step c s).2 (hsuf c s)
        omega
      obtain ⟨hrest, hcl2⟩ :=
        ih (step c s).2 (fun r hr => hl r (List.mem_cons_of_mem c hr)) hcond2
      have hsub2 : (step c s).2 <:+ (stageImports step rest (step c s).2).2 :=
        stageImports_suffix step hsuf rest (step c s).2
      constructor
      · intro r hr
        rcases List.mem_cons.mp hr with rfl | hr2
        · exact hsub2.subset hcin
        · exact hrest r hr2
      · exact seenClosed_trans w U _ _ _ hcl1 hcl2 hsub2

theorem initStore0_complete (w : Nat → CtxData) (U : Finset Nat)
    (hU : ∀ c ∈ U, ∀ i ∈ (w c).imports, i ∈ U) :
    ∀ (fuel c : Nat) (s : List Nat), c ∈ U →
      U.card + 1 ≤ fuel + (s.toFinset ∩ U).card →
      c ∈ (initStore0 w fuel c s).2 ∧ SeenClosed w U s (initStore0 w fuel c s).2 := by
  intro fuel
  induction fuel with
  | zero =>
      intro c s hc hcond
      exfalso
      have hle : (s.toFinset ∩ U).card ≤ U.card :=
        Finset.card_le_card Finset.inter_subset_right
      omega
  | succ n ih =>
      intro c s hc hcond
      rw [initStore0]
      by_cases hcs : c ∈ s
      · rw [if_pos hcs]
        exact ⟨hcs, fun x hx hnx => absurd hx hnx⟩
      · rw [if_neg hcs]
        dsimp only
        have hcard := card_inter_cons U c s hc hcs
        have hcond2 : U.card + 1 ≤ n + (((c :: s).toFinset ∩ U)).card := by omega
        obtain ⟨himps, hcl⟩ := stageImports_complete w U n
          (fun c2 s2 => initStore0 w n c2 s2)
          (fun c2 s2 => initStore0_suffix w n c2 s2)
          (fun c2 s2 hc2 hcond3 => ih c2 s2 hc2 hcond3)
          (w c).imports (c :: s) (fun r hr => hU c hc r hr) hcond2
        have hsub : (c :: s) <:+
            (stageImports (fun c2 s2 => initStore0 w n c2 s2) (w c).imports
              (c :: s)).2 :=
          stageImports_suffix (fun c2 s2 => initStore0 w n c2 s2)
            (fun c2 s2 => initStore0_suffix w n c2 s2) (w c).imports (c :: s)
        constructor
        · exact hsub.subset (List.mem_cons_self c s)
        · intro x hx hnx
          by_cases hxc : x = c
          · subst hxc
            exact ⟨hc, himps⟩
          · have hnx2 : x ∉ c :: s :=
              fun hm => (List.mem_cons.mp hm).elim hxc hnx
            exact hcl x hx hnx2

theorem reaches_mem_seen (w : Nat → CtxData) (U : Finset Nat)
    (hU : ∀ c ∈ U, ∀ i ∈ (w c).imports, i ∈ U) (root fuel : Nat)
    (hroot : root ∈ U) (hfuel : U.card < fuel) :
    ∀ x, Reaches w root x → x ∈ (initStore0 w fuel root []).2 := by
  have hcond : U.card + 1 ≤ fuel + (([] : List Nat).toFinset ∩ U).card := by
    simp only [List.toFinset_nil, Finset.empty_inter, Finset.card_empty]
    omega
  obtain ⟨hr, hcl⟩ := initStore0_complete w U hU fuel root [] hroot hcond
  intro x hx
  unfold Reaches at hx
  induction hx with
  | refl => exact hr
  | tail hab hbc ih2 => exact (hcl _ ih2 (List.not_mem_nil _)).2 _ hbc

/-! ## Lemmas: dependency-flattening dedup keys -/

theorem flattenDepList_nodup
    (step : Nat → Finset Nat → List DKey → List StoreConf × List DKey)
    (hstep : ∀ b e s, s.Nodup → (step b e s).2.Nodup) :
    ∀ (l : List DependencyDescriptor) (inh : Finset Nat) (s : List DKey),
      s.Nodup → ((flattenDepList step l inh s).2).Nodup := by
  intro l
  induction l with
  | nil =>
      intro inh s hs
      rw [flattenDepList]
      exact hs
  | cons dd rest ih =>
      intro inh s hs
      rw [flattenDepList]
      by_cases hk : (dd.id, inh ∪ dd.excludes) ∈ s
      · rw [if_pos hk]
        exact ih inh s hs
      · rw [if_neg hk]
        exact ih inh _ (hstep _ _ _ (List.nodup_cons.mpr ⟨hk, hs⟩))

theorem flattenDeps_nodup (w : Nat → Descriptor) :
    ∀ (fuel bid : Nat) (inh : Finset Nat) (s : List DKey),
      s.Nodup → ((flattenDeps w fuel bid inh s).2).Nodup := by
  intro fuel
  induction fuel with
  | zero =>
      intro bid inh s hs
      rw [flattenDeps]
      exact hs
  | succ n ih =>
      intro bid inh s hs
      rw [flattenDeps]
      exact flattenDepList_nodup (fun b e s2 => flattenDeps w n b e s2)
        (fun b e s2 hs2 => ih b e s2 hs2) (w bid).dependencies inh s hs

/-! ## Claim theorems -/

/-- Claim C1 (confirmed, modelled from the spec): dependency flattening
deduplicates by the pair of id and effective exclusion set with the first
declared occurrence winning, depth-first in declaration order with a single
seen list threaded across the whole build — the seen list never records a
key twice; in the two-level fixture the flattened configuration is exactly
the three entries self, dep aggregate, nested dep-dep aggregate (the direct
dep-dep reference is dropped), and when the direct dep edge carries the
exclude set `{10}` a separate top-level dep-dep aggregate appears as well. -/
theorem c1_dependency_flattening :
    (∀ (world : Nat → Descriptor) (fuel bid : Nat) (inh : Finset Nat)
        (seen : List DKey), seen.Nodup → ((flattenDeps world fuel bid inh seen).2).Nodup) ∧
      buildStoreConf depWorld1 3 0 =
        [StoreConf.leaf 0,
          StoreConf.agg [StoreConf.leaf 1, StoreConf.agg [StoreConf.leaf 2] ∅] ∅] ∧
      buildStoreConf depWorld2 3 0 =
        [StoreConf.leaf 0,
          StoreConf.agg [StoreConf.leaf 1, StoreConf.agg [StoreConf.leaf 2] ∅] {10},
          StoreConf.agg [StoreConf.leaf 2] ∅] :=
  ⟨fun world fuel bid inh seen hs => flattenDeps_nodup world fuel bid inh seen hs,
    rfl, rfl⟩

/-- Witness for C1 at a concrete input: the build over `depWorld1` from the
empty seen list yields a duplicate-free key list. -/
theorem c1_dependency_flattening_witness :
    ((flattenDeps depWorld1 3 0 ∅ []).2).Nodup :=
  c1_dependency_flattening.1 depWorld1 3 0 ∅ [] List.nodup_nil

/-- Claim C2 (confirmed, modelled from the spec): install succeeds exactly
when every import edge out of an included context has a covered target
(own includes or a directly declared dependency's includes minus that
edge's excludes); with the edge ctx1 → ctx2, install fails with
UncoveredImports for a bundle with no dependencies, succeeds when a direct
dependency includes ctx2, and fails again when ctx2 is covered only by a
transitive dependency. -/
theorem c2_uncovered_imports :
    (∀ (w : Nat → Descriptor) (d : Descriptor) (edges : List (Nat × Nat)),
        Installer.validateImports w d edges = .ok () ↔
          ∀ e ∈ edges, e.1 ∈ d.includes → coveredB w d e.2 = true) ∧
      Installer.validateImports instWorld1 instDesc1 [(1, 2)] =
        .error (.uncoveredImports [2]) ∧
      Installer.validateImports instWorld2 instDesc2 [(1, 2)] = .ok () ∧
      Installer.validateImports instWorld3 instDesc2 [(1, 2)] =
        .error (.uncoveredImports [2]) := by
  have hiff : ∀ (w : Nat → Descriptor) (d : Descriptor) (e : Nat × Nat),
      (¬(decide (e.1 ∈ d.includes) && !coveredB w d e.2) = true) ↔
        (e.1 ∈ d.includes → coveredB w d e.2 = true) := by
    intro w d e
    by_cases h1 : e.1 ∈ d.includes <;> by_cases h2 : coveredB w d e.2 = true <;>
      simp [h1, h2]
  refine ⟨?_, by decide, by decide, by decide⟩
  intro w d edges
  unfold Installer.validateImports
  by_cases hL : (edges.filter
      (fun e => decide (e.1 ∈ d.includes) && !coveredB w d e.2)).map Prod.snd = []
  · rw [if_pos hL]
    have h1 := List.filter_eq_nil_iff.mp (List.map_eq_nil_iff.mp hL)
    constructor
    · intro _ e he
      exact (hiff w d e).mp (h1 e he)
    · intro _
      rfl
  · rw [if_neg hL]
    constructor
    · intro hcon
      exact absurd hcon (by simp)
    · intro hall
      exfalso
      apply hL
      rw [List.map_eq_nil_iff, List.filter_eq_nil_iff]
      intro e he
      exact (hiff w d e).mpr (hall e he)

/-- Witness for C2 at a concrete input: coverage by the direct dependency
makes install succeed, through the general characterization. -/
theorem c2_uncovered_imports_witness :
    Installer.validateImports instWorld2 instDesc2 [(1, 2)] = .ok () :=
  (c2_uncovered_imports.1 instWorld2 instDesc2 [(1, 2)]).mpr (by decide)

/-- Counterexample to C3 as stated: in a world where context 0 has no
statements and imports context 1, which holds one ground statement, the
staged index tags that statement with 1 — the identifier of the context
containing it — and not with 0, the importing context's identifier. -/
theorem c3_tagging_counterexample :
    (initStore0 ctxWorldCex 3 0 []).1 =
      [((RTerm.node 5, RTerm.node 6, RTerm.node 7), 1)] ∧ (1 : Nat) ≠ 0 :=
  ⟨rfl, by decide⟩

/-- Claim C3 (corrected): constructing a ContextStore stages exactly the
ground statements of the context and of every transitively imported context
(cycles tolerated), visiting each context identifier at most once via the
seen set, and each staged statement is tagged with the identifier of the
context that contains it (not with the importing context's identifier). -/
theorem c3_staging_amended (w : Nat → CtxData) (U : Finset Nat) (root fuel : Nat)
    (hU : ∀ c ∈ U, ∀ i ∈ (w c).imports, i ∈ U) (hroot : root ∈ U)
    (hfuel : U.card < fuel) :
    (∀ (st : Stmt) (c : Nat), (st, c) ∈ (initStore0 w fuel root []).1 ↔
        (Reaches w root c ∧ groundB st = true ∧ st ∈ (w c).contents)) ∧
      (initStore0 w fuel root []).2.Nodup := by
  constructor
  · intro st c
    have hq := initStore0_quads w fuel root []
    unfold QuadSpec at hq
    rw [hq st c]
    constructor
    · rintro ⟨hc, -, hg, hct⟩
      refine ⟨?_, hg, hct⟩
      rcases initStore0_sound w fuel root [] c hc with h1 | h1
      · exact absurd h1 (List.not_mem_nil c)
      · exact h1
    · rintro ⟨hr, hg, hct⟩
      exact ⟨reaches_mem_seen w U hU root fuel hroot hfuel c hr,
        List.not_mem_nil c, hg, hct⟩
  · exact initStore0_nodup w fuel root [] List.nodup_nil

/-- Witness for C3 on the cyclic two-context world with a non-ground
statement, universe `{0, 1}` and fuel 3. -/
theorem c3_staging_amended_witness :
    (∀ (st : Stmt) (c : Nat), (st, c) ∈ (initStore0 ctxWorldCyc 3 0 []).1 ↔
        (Reaches ctxWorldCyc 0 c ∧ groundB st = true ∧
          st ∈ (ctxWorldCyc c).contents)) ∧
      (initStore0 ctxWorldCyc 3 0 []).2.Nodup :=
  c3_staging_amended ctxWorldCyc {0, 1} 0 3 (by decide) (by decide) (by decide)

/-- Claim C4 (confirmed): with a non-empty transitive-import closure, the
query-per-context plan and the scan-and-filter plan agree on the full
wildcard query, so the cost-heuristic decision `perctx` never changes the
result of `triples` for any pattern and context. -/
theorem c4_query_plans_agree (closure : Finset Nat) (store : Finset (Nat × Nat))
    (h : closure.Nonempty) :
    planA closure store = scanFilter closure store none none ∧
      ∀ (pat : Option (Nat → Bool)) (context : Option Nat) (b1 b2 : Bool),
        rdfTriples closure store pat context b1 =
          rdfTriples closure store pat context b2 := by
  refine ⟨planA_eq_scanFilter closure store h, ?_⟩
  intro pat context b1 b2
  cases hd : determineContext closure context with
  | bad => unfold rdfTriples; rw [hd]
  | ctx c => unfold rdfTriples; rw [hd]
  | noctx =>
      unfold rdfTriples
      rw [hd]
      by_cases hp : pat.isNone = true
      · have hpn : pat = none := Option.isNone_iff_eq_none.mp hp
        subst hpn
        cases b1 <;> cases b2 <;>
          simp [planA_eq_scanFilter closure store h]
      · have hp2 : pat.isNone = false := by
          revert hp
          cases pat.isNone <;> simp
        rw [hp2]
        simp

/-- Witness for C4 at a concrete closure and store. -/
theorem c4_query_plans_agree_witness :
    planA {0} {(3, 0), (4, 1)} = scanFilter {0} {(3, 0), (4, 1)} none none :=
  (c4_query_plans_agree {0} {(3, 0), (4, 1)} (by decide)).1

/-- Counterexample to C5 as stated: `ContextStore.add` rejects the call with
NotImplementedError ("This is a query-only store"), which is not
UnsupportedAggregateOperation. -/
theorem c5_error_type_counterexample :
    ContextStore.add ⟨some ∅, none⟩ (RTerm.node 0, RTerm.node 0, RTerm.node 0) none =
        .error .notImplementedError ∧
      PyErr.notImplementedError ≠ PyErr.unsupportedAggregateOperation :=
  ⟨rfl, by decide⟩

/-- Claim C5 (corrected): every mutating call on a ContextStore — add, addN,
remove — is rejected by raising NotImplementedError (not
UnsupportedAggregateOperation), and the staged index and backing overlay are
left unchanged (no successor state is ever produced). -/
theorem c5_mutation_rejected_amended (s : ContextStore) (t : Stmt) (c : Option Nat)
    (quads : List (Stmt × Nat)) (pat : Option Stmt) (c2 : Option Nat) :
    ContextStore.add s t c = .error .notImplementedError ∧
      ContextStore.addN s quads = .error .notImplementedError ∧
      ContextStore.remove s pat c2 = .error .notImplementedError :=
  ⟨rfl, rfl, rfl⟩

/-- Claim C6 (confirmed): on an AggregateStore, add, remove, add_graph,
remove_graph, create, destroy and rollback unconditionally raise
UnsupportedAggregateOperation without producing any successor state, while
addN and commit are forwarded only to the first child store — the remaining
children and the bound namespaces are untouched. -/
theorem c6_aggregate_mutators (σ : Type) (s : AggState σ) (st : σ) (rest : List σ)
    (b : Nat → Option Nat) (f : σ → List (Nat × Nat) → σ) (g : σ → σ)
    (quads : List (Nat × Nat)) :
    AggregateStore.add s = .error .unsupportedAggregateOperation ∧
      AggregateStore.remove s = .error .unsupportedAggregateOperation ∧
      AggregateStore.add_graph s = .error .unsupportedAggregateOperation ∧
      AggregateStore.remove_graph s = .error .unsupportedAggregateOperation ∧
      AggregateStore.create s = .error .unsupportedAggregateOperation ∧
      AggregateStore.destroy s = .error .unsupportedAggregateOperation ∧
      AggregateStore.rollback s = .error .unsupportedAggregateOperation ∧
      AggregateStore.addN f ⟨st :: rest, b⟩ quads = .ok ⟨f st quads :: rest, b⟩ ∧
      AggregateStore.commit g ⟨st :: rest, b⟩ = .ok ⟨g st :: rest, b⟩ :=
  ⟨rfl, rfl, rfl, rfl, rfl, rfl, rfl, rfl, rfl⟩

/-- Counterexample to C7 as stated: children reporting `some 1`, `none`,
`some 2` for the same namespace give two different non-null mappings, yet
`prefix` returns `some 2` without raising AggregatedStoresConflict, because
the intervening null report overwrote the accumulator. -/
theorem c7_conflict_counterexample :
    AggregateStore.prefixFor (fun (st : Option Nat) (_ : Nat) => st)
        ⟨[some 1, none, some 2], fun _ => none⟩ 0 = .ok (some 2) ∧
      (some 1 : Option Nat) ≠ some 2 :=
  ⟨rfl, by decide⟩

/-- Claim C7 (corrected): `prefix` (and `namespace`) raise
AggregatedStoresConflict exactly when some child's non-null report differs
from the immediately preceding child's non-null report (a null report resets
the comparison value), not whenever any two children disagree; when the walk
completes with a null final report, `namespace` falls back to the locally
bound namespaces while `prefix` returns null without consulting them. -/
theorem c7_conflict_amended (σ : Type) (m : σ → Nat → Option Nat) (s : AggState σ)
    (ns p : Nat) :
    ((∃ e, AggregateStore.prefixFor m s ns = .error e) ↔
        ¬ List.Chain' reportCompat (none :: s.stores.map (fun st => m st ns))) ∧
      (List.Chain' reportCompat (none :: s.stores.map (fun st => m st p)) →
        (s.stores.map (fun st => m st p)).getLastD none = none →
        AggregateStore.nsFor m s p = .ok (s.boundNs p)) ∧
      (List.Chain' reportCompat (none :: s.stores.map (fun st => m st ns)) →
        (s.stores.map (fun st => m st ns)).getLastD none = none →
        AggregateStore.prefixFor m s ns = .ok none) := by
  refine ⟨?_, ?_, ?_⟩
  · unfold AggregateStore.prefixFor
    exact foldStoreReports_error_iff (s.stores.map (fun st => m st ns)) none
  · intro hch hlast
    unfold AggregateStore.nsFor
    rw [foldStoreReports_ok_of_chain _ none hch, hlast]
    rfl
  · intro hch hlast
    unfold AggregateStore.prefixFor
    rw [foldStoreReports_ok_of_chain _ none hch, hlast]

/-- Witness for C7: with child reports `some 1`, `none` (no consecutive
conflict, null final report), `namespace` falls back to the bound mapping
`some 9` and `prefix` returns null. -/
theorem c7_conflict_amended_witness :
    AggregateStore.nsFor (fun (st : Option Nat) (_ : Nat) => st)
        ⟨[some 1, none], fun _ => some 9⟩ 0 = .ok (some 9) ∧
      AggregateStore.prefixFor (fun (st : Option Nat) (_ : Nat) => st)
        ⟨[some 1, none], fun _ => some 9⟩ 0 = .ok none :=
  ⟨(c7_conflict_amended (Option Nat) (fun st _ => st)
      ⟨[some 1, none], fun _ => some 9⟩ 0 0).2.1
      (by simp [List.chain'_cons, List.chain'_singleton, reportCompat]) (by decide),
    (c7_conflict_amended (Option Nat) (fun st _ => st)
      ⟨[some 1, none], fun _ => some 9⟩ 0 0).2.2
      (by simp [List.chain'_cons, List.chain'_singleton, reportCompat]) (by decide)⟩

/-- Claim C8 (confirmed): a context identifier outside the transitive-import
closure is the bad-context sentinel — `triples` and `triples_choices` return
the empty result for it under either cost decision, and `remove` deletes
nothing; all three return normally. -/
theorem c8_context_not_in_closure (closure : Finset Nat) (store : Finset (Nat × Nat))
    (pat : Option (Nat → Bool)) (c : Nat) (b : Bool) (h : c ∉ closure) :
    rdfTriples closure store pat (some c) b = ∅ ∧
      rdfTriplesChoices closure store pat (some c) = ∅ ∧
      rdfRemove closure store pat (some c) = store := by
  have hd : determineContext closure (some c) = .bad := by
    show (if c ∈ closure then DContext.ctx c else DContext.bad) = DContext.bad
    rw [if_neg h]
  refine ⟨?_, ?_, ?_⟩
  · unfold rdfTriples
    rw [hd]
  · unfold rdfTriplesChoices
    rw [hd]
  · unfold rdfRemove
    rw [hd]

/-- Witness for C8: context 1 against the closure `{0}`. -/
theorem c8_context_not_in_closure_witness :
    rdfTriples {0} {(7, 0)} none (some 1) true = ∅ ∧
      rdfTriplesChoices {0} {(7, 0)} none (some 1) = ∅ ∧
      rdfRemove {0} {(7, 0)} none (some 1) = {(7, 0)} :=
  c8_context_not_in_closure {0} {(7, 0)} none 1 true (by decide)

/-- Claim C9 (confirmed): on an opened ContextStore, `__len__` returns
exactly the number of staged statements — each distinct statement counted
once, as rdflib Memory does across context tags — when the store was
constructed without the backing overlay, and raises NotImplementedError
whenever the overlay is present. -/
theorem c9_len_behavior (w : Nat → CtxData) (fuel root : Nat) :
    ContextStore.len (ContextStore.make w fuel root false) =
        .ok (((stagedStatements w fuel root).image Prod.fst).card) ∧
      ContextStore.len (ContextStore.make w fuel root true) =
        .error .notImplementedError :=
  ⟨rfl, rfl⟩

/-- Claim C10 (confirmed): when `prefix` returns, it returns the report of
the last child queried — in particular an earlier non-null report followed
by null reports is discarded and null is returned; `namespace` behaves the
same over the children before falling back to the locally bound
namespaces. -/
theorem c10_last_child_wins (σ : Type) (m : σ → Nat → Option Nat) (s : AggState σ)
    (ns p : Nat) (v u : Option Nat) :
    (AggregateStore.prefixFor m s ns = .ok v →
        v = (s.stores.map (fun st => m st ns)).getLastD none) ∧
      (AggregateStore.nsFor m s p = .ok u →
        u = match (s.stores.map (fun st => m st p)).getLastD none with
            | some x => some x
            | none => s.boundNs p) := by
  constructor
  · intro h
    unfold AggregateStore.prefixFor at h
    exact foldStoreReports_ok_val _ none v h
  · intro h
    unfold AggregateStore.nsFor at h
    cases hf : foldStoreReports none (s.stores.map (fun st => m st p)) with
    | error e =>
        rw [hf] at h
        simp only [Except.map] at h
        cases h
    | ok r =>
        have hr := foldStoreReports_ok_val _ none r hf
        rw [hf] at h
        simp only [Except.map] at h
        injection h with h
        rw [← hr, ← h]

/-- Witness for C10: children reporting `some 1` then `none` make `prefix`
return null (the last report) and `namespace` fall back to the bound
mapping. -/
theorem c10_last_child_wins_witness :
    ((none : Option Nat) =
        (([some 1, none] : List (Option Nat)).map (fun st => st)).getLastD none) ∧
      ((some 9 : Option Nat) =
        match (([some 1, none] : List (Option Nat)).map (fun st => st)).getLastD none with
        | some x => some x
        | none => some 9) :=
  ⟨(c10_last_child_wins (Option Nat) (fun st _ => st)
      ⟨[some 1, none], fun _ => some 9⟩ 0 0 none (some 9)).1 (by decide),
    (c10_last_child_wins (Option Nat) (fun st _ => st)
      ⟨[some 1, none], fun _ => some 9⟩ 0 0 none (some 9)).2 (by decide)⟩
